import Mathlib

/-!
Shallow embedding of the keystroke metrics pipeline in
src/analysis/keystroke_stress_analysis.py (a pandas/numpy script).

Modelling conventions:
* Timestamps are integer milliseconds (the script converts pressed_at to
  int64 nanoseconds and divides by 10^6, so every comparison and
  difference happens on integers).
* IEEE floats are idealised as rationals; a float NaN is Option.none.
* Standard deviations are square roots of rational variances, hence
  irrational in general.  The row fields sd_khd_ms / sd_iki_ms / cv_khd /
  cv_iki store the radicand (the exact nonnegative rational whose square
  root the script reports).  Since the square root function is injective
  on nonnegative reals, presence, absence and equality of the reported
  float values are mirrored exactly by the stored radicands.
* Pandas table rows become Lean structures; a pandas groupby becomes a
  deduplicated key list plus a filter per key.  Row order inside tables
  follows first occurrence of the key rather than the sorted-key order
  pandas uses; no claim depends on table row order.
-/

/-- One row of the keystrokes table after CHUNK 1 column normalisation:
session_id, test_type, optional field_name, event_type, key and the
millisecond timestamp pressed_at_ms. -/
structure Event where
  session : String
  test : String
  field : Option String
  evtype : String
  key : String
  t : Int
deriving DecidableEq, Repr

/-- Convenience constructor: a keydown event in a fixed group. -/
def mkDown (k : String) (t : Int) : Event :=
  ⟨"s1", "free", none, "keydown", k, t⟩

/-- Convenience constructor: a keyup event in a fixed group. -/
def mkUp (k : String) (t : Int) : Event :=
  ⟨"s1", "free", none, "keyup", k, t⟩

/-- The inner while loop of the key-hold-duration scan (lines 109-119):
starting after a keydown of key k at time tDown, return the raw duration
for the first keyup of k, abort (none) at another keydown of k, and skip
every other event. -/
def khdScan (k : String) (tDown : Int) : List Event → Option Int
  | [] => none
  | e :: rest =>
    if e.evtype = "keyup" ∧ e.key = k then some (e.t - tDown)
    else if e.evtype = "keydown" ∧ e.key = k then none
    else khdScan k tDown rest

/-- The outer while loop of the key-hold-duration scan (lines 103-120):
the index runs to len-2 only, each keydown starts an inner scan, and the
duration is kept only when 0 < d < 2000. -/
def khdPairs : List Event → List Int
  | [] => []
  | [_] => []
  | e :: rest =>
    (if e.evtype = "keydown" then
      match khdScan e.key e.t rest with
      | some d => if 0 < d ∧ d < 2000 then [d] else []
      | none => []
    else []) ++ khdPairs rest

/-- An event that decides the fate of an open keydown of key k: the first
keyup or keydown of the same key. -/
def khdKeyEvent (k : String) (e : Event) : Bool :=
  decide ((e.evtype = "keyup" ∨ e.evtype = "keydown") ∧ e.key = k)

/-- Declarative reading of the claim: the keydown at index i emits a
sample iff the first later event that is a keyup-or-keydown of the same
key is a keyup, with the duration in (0, 2000). -/
def khdEmit (evs : List Event) (i : Nat) : Option Int :=
  match evs[i]? with
  | none => none
  | some e =>
    if e.evtype = "keydown" then
      match (evs.drop (i + 1)).find? (khdKeyEvent e.key) with
      | some e2 =>
        if e2.evtype = "keyup" ∧ 0 < e2.t - e.t ∧ e2.t - e.t < 2000 then
          some (e2.t - e.t)
        else none
      | none => none
    else none

/-- Declarative key-hold-duration samples: one candidate per index. -/
def khdSpec (evs : List Event) : List Int :=
  (List.range evs.length).filterMap (khdEmit evs)

/-- The inter-key-interval scan (lines 127-135), carrying the pending
last_keyup_time: a keyup overwrites it, a keydown with a pending time
emits the gap when 0 < gap < 5000 and always clears the pending time. -/
def ikiGo : Option Int → List Event → List Int
  | _, [] => []
  | last, e :: rest =>
    if e.evtype = "keyup" then ikiGo (some e.t) rest
    else if e.evtype = "keydown" then
      match last with
      | some lt => (if 0 < e.t - lt ∧ e.t - lt < 5000 then [e.t - lt] else []) ++ ikiGo none rest
      | none => ikiGo none rest
    else ikiGo last rest

/-- Inter-key-interval samples of one time-ascending group. -/
def ikiPairs (evs : List Event) : List Int := ikiGo none evs

/-- numpy-style min of an integer list (defined value only used on
nonempty lists; the script always guards the empty case). -/
def listMin : List Int → Int
  | [] => 0
  | x :: xs => xs.foldl min x

/-- numpy-style max of an integer list. -/
def listMax : List Int → Int
  | [] => 0
  | x :: xs => xs.foldl max x

/-- times.min() over a group. -/
def minTime (g : List Event) : Int := listMin (g.map (fun e => e.t))

/-- times.max() over a group. -/
def maxTime (g : List Event) : Int := listMax (g.map (fun e => e.t))

/-- duration_ms = times.max() - times.min() if len(times) >= 2 else 0
(lines 58 and 263). -/
def durationMs (grp : List Event) : Int :=
  if 2 ≤ grp.length then maxTime grp - minTime grp else 0

/-- Arithmetic mean of integer samples as an exact rational. -/
def meanQ (xs : List Int) : ℚ := ((xs.sum : Int) : ℚ) / (xs.length : ℚ)

/-- Sum of squared deviations from the mean. -/
def sqDevSum (xs : List Int) : ℚ :=
  (xs.map (fun x => ((x : ℚ) - meanQ xs) ^ 2)).sum

/-- pandas Series.std default: sample variance with ddof = 1, NaN (none)
for fewer than two samples.  The script reports the square root of this
radicand. -/
def pandasStdSq (xs : List Int) : Option ℚ :=
  if 2 ≤ xs.length then some (sqDevSum xs / ((xs.length : ℚ) - 1)) else none

/-- numpy std default: population variance with ddof = 0 (0 for a single
sample).  The script reports the square root of this radicand. -/
def numpyStdSq (xs : List Int) : ℚ := sqDevSum xs / (xs.length : ℚ)

/-- n_keydowns: count of keydown events in the group. -/
def countKeydown (grp : List Event) : Nat :=
  (grp.filter (fun e => decide (e.evtype = "keydown"))).length

/-- backspace_count: count of keydown events whose key is Backspace. -/
def countBackspace (grp : List Event) : Nat :=
  (grp.filter (fun e => decide (e.evtype = "keydown" ∧ e.key = "Backspace"))).length

/-- pause_count threshold counter: (iki_s > thr).sum() if len(iki_s) else 0. -/
def pauseCount (thr : Int) (iki : List Int) : Nat :=
  if iki ≠ [] then (iki.filter (fun x => decide (thr < x))).length else 0

/-- One row of the metrics table (_agg_row, lines 55-81).  The sd / cv
fields hold the radicand whose square root the script reports, none
standing for float NaN. -/
structure AggRow where
  session_id : String
  test_type : String
  n_events : Nat
  n_keydowns : Nat
  duration_sec : ℚ
  mean_khd_ms : Option ℚ
  sd_khd_ms : Option ℚ
  cv_khd : Option ℚ
  mean_iki_ms : Option ℚ
  sd_iki_ms : Option ℚ
  cv_iki : Option ℚ
  pause_count_200ms : Nat
  pause_count_500ms : Nat
  backspace_count : Nat
  backspace_rate : ℚ
  cpm : Option ℚ
deriving DecidableEq, Repr

/-- _agg_row (lines 55-81): build one aggregate row from a group and its
paired hold-duration and interval samples.  sd uses the pandas default
(sample std, ddof 1, NaN below two samples); cv divides that std by the
mean, so its radicand is variance / mean^2 and it inherits the NaN. -/
def aggRow (sid tt : String) (grp : List Event) (khd iki : List Int) : AggRow :=
  let dms := durationMs grp
  let nk := countKeydown grp
  let nb := countBackspace grp
  { session_id := sid
    test_type := tt
    n_events := grp.length
    n_keydowns := nk
    duration_sec := (dms : ℚ) / 1000
    mean_khd_ms := if khd ≠ [] then some (meanQ khd) else none
    sd_khd_ms := if khd ≠ [] then pandasStdSq khd else none
    cv_khd := if khd ≠ [] ∧ 0 < meanQ khd then (pandasStdSq khd).map (fun v => v / (meanQ khd) ^ 2) else none
    mean_iki_ms := if iki ≠ [] then some (meanQ iki) else none
    sd_iki_ms := if iki ≠ [] then pandasStdSq iki else none
    cv_iki := if iki ≠ [] ∧ 0 < meanQ iki then (pandasStdSq iki).map (fun v => v / (meanQ iki) ^ 2) else none
    pause_count_200ms := pauseCount 200 iki
    pause_count_500ms := pauseCount 500 iki
    backspace_count := nb
    backspace_rate := if nk ≠ 0 then (nb : ℚ) / (nk : ℚ) else 0
    cpm := if 0 < dms then some (((nk : ℚ) - (nb : ℚ)) / ((dms : ℚ) / 60000)) else none }

/-- One row of the per-field metrics table (lines 277-296). -/
structure FieldRow where
  session_id : String
  test_type : String
  field_name : String
  n_events : Nat
  n_keydowns : Nat
  duration_sec : ℚ
  mean_khd_ms : Option ℚ
  sd_khd_ms : Option ℚ
  cv_khd : Option ℚ
  mean_iki_ms : Option ℚ
  sd_iki_ms : Option ℚ
  cv_iki : Option ℚ
  pause_count_200ms : Nat
  pause_count_500ms : Nat
  backspace_count : Nat
  backspace_rate : ℚ
  cpm : Option ℚ
  first_key_latency_ms : Int
deriving DecidableEq, Repr

/-- Per-field row builder (lines 229-297): recomputes khd and iki pairs
inside the field group with the same scans, uses numpy std (population,
ddof 0) for sd and cv, and adds first_key_latency_ms = times.min() -
test_start. -/
def fieldRow (sid tt f : String) (grp : List Event) (testStart : Int) : FieldRow :=
  let khd := khdPairs grp
  let iki := ikiPairs grp
  let dms := durationMs grp
  let nk := countKeydown grp
  let nb := countBackspace grp
  { session_id := sid
    test_type := tt
    field_name := f
    n_events := grp.length
    n_keydowns := nk
    duration_sec := (dms : ℚ) / 1000
    mean_khd_ms := if khd ≠ [] then some (meanQ khd) else none
    sd_khd_ms := if khd ≠ [] then some (numpyStdSq khd) else none
    cv_khd := if khd ≠ [] ∧ 0 < meanQ khd then some (numpyStdSq khd / (meanQ khd) ^ 2) else none
    mean_iki_ms := if iki ≠ [] then some (meanQ iki) else none
    sd_iki_ms := if iki ≠ [] then some (numpyStdSq iki) else none
    cv_iki := if iki ≠ [] ∧ 0 < meanQ iki then some (numpyStdSq iki / (meanQ iki) ^ 2) else none
    pause_count_200ms := pauseCount 200 iki
    pause_count_500ms := pauseCount 500 iki
    backspace_count := nb
    backspace_rate := if nk ≠ 0 then (nb : ℚ) / (nk : ℚ) else 0
    cpm := if 0 < dms then some (((nk : ℚ) - (nb : ℚ)) / ((dms : ℚ) / 60000)) else none
    first_key_latency_ms := minTime grp - testStart }

/-- grp.sort_values(pressed_at): ascending sort by timestamp.  pandas
quicksort fixes no order between equal timestamps; insertion sort picks
one such order. -/
def sortByTime (l : List Event) : List Event :=
  List.insertionSort (fun a b => a.t ≤ b.t) l

/-- The (session_id, test_type) group of the keystrokes table. -/
def groupOf (evs : List Event) (sid tt : String) : List Event :=
  sortByTime (evs.filter (fun e => decide (e.session = sid ∧ e.test = tt)))

/-- The combined per-session group used for the overall pass (line 157). -/
def sessionGroup (evs : List Event) (sid : String) : List Event :=
  sortByTime (evs.filter (fun e => decide (e.session = sid)))

/-- One per-test row of the metrics table: _agg_row on the group with the
samples the pairing pass stored for that (session_id, test_type) key
(lines 148-153; the khd_df/iki_df filter returns exactly the pairs the
scans appended while visiting this group). -/
def testRow (evs : List Event) (sid tt : String) : AggRow :=
  let g := groupOf evs sid tt
  aggRow sid tt g (khdPairs g) (ikiPairs g)

/-- One per-session overall row (lines 156-190): same scans over the
session-wide time-sorted group, test_type labelled overall. -/
def overallRow (evs : List Event) (sid : String) : AggRow :=
  let g := sessionGroup evs sid
  aggRow sid "overall" g (khdPairs g) (ikiPairs g)

/-- Distinct (session_id, test_type) keys, in first-occurrence order. -/
def testKeys (evs : List Event) : List (String × String) :=
  (evs.map (fun e => (e.session, e.test))).dedup

/-- Distinct session ids (df.session_id.unique()), first-occurrence order. -/
def sessionKeys (evs : List Event) : List String :=
  (evs.map (fun e => e.session)).dedup

/-- The metrics table: per-test rows followed by per-session overall rows
(compute_keystroke_metrics, returned at line 192). -/
def metricsTable (evs : List Event) : List AggRow :=
  (testKeys evs).map (fun k => testRow evs k.1 k.2)
    ++ (sessionKeys evs).map (fun s => overallRow evs s)

/-- Distinct (session_id, test_type, field_name) keys with a present
field_name; pandas groupby drops rows whose key is NaN. -/
def fieldKeysOf (evs : List Event) : List (String × String × String) :=
  (evs.filterMap (fun e => e.field.map (fun f => (e.session, e.test, f)))).dedup

/-- The (session_id, test_type, field_name) group, time sorted. -/
def fieldGroup (evs : List Event) (sid tt f : String) : List Event :=
  sortByTime (evs.filter (fun e =>
    decide (e.session = sid ∧ e.test = tt ∧ e.field = some f)))

/-- test_start_ms (lines 211-215): the minimum pressed_at_ms over every
event of the (session_id, test_type) test, whole-table scope. -/
def testStartMs (evs : List Event) (sid tt : String) : Int :=
  listMin ((evs.filter (fun e => decide (e.session = sid ∧ e.test = tt))).map (fun e => e.t))

/-- test_start_ms.get((sid, tt), times.min()) (line 274): the dict lookup
with the group minimum as fallback for an absent key. -/
def testStartOr (evs : List Event) (sid tt : String) (grp : List Event) : Int :=
  if evs.any (fun e => decide (e.session = sid ∧ e.test = tt)) then testStartMs evs sid tt
  else minTime grp

/-- python str.strip(): drop leading and trailing whitespace (field.strip()
at line 221). -/
def stripStr (s : String) : String :=
  ⟨((s.data.dropWhile Char.isWhitespace).reverse.dropWhile Char.isWhitespace).reverse⟩

/-- compute_keystroke_metrics_by_field (lines 217-303): one row per
distinct present field key, skipping keys whose field_name is blank after
stripping whitespace, and skipping empty groups (line 229; unreachable
from groupby). -/
def byFieldTable (evs : List Event) : List FieldRow :=
  (fieldKeysOf evs).filterMap (fun k =>
    if stripStr k.2.2 = "" then none
    else
      let grp := fieldGroup evs k.1 k.2.1 k.2.2
      if grp.length = 0 then none
      else some (fieldRow k.1 k.2.1 k.2.2 grp (testStartOr evs k.1 k.2.1 grp)))

/-- Rewrite every field_name through g, leaving all other columns alone. -/
def setField (g : Option String → Option String) (e : Event) : Event :=
  { e with field := g e.field }

/-- The two ways CHUNK 1 loading can abort: a pandas KeyError from
indexing a missing column, or the explicit ValueError of lines 42-44. -/
inductive LoadError
  | keyError (col : String)
  | valueError (col : String)
deriving DecidableEq, Repr

/-- The columns the explicit loop of lines 42-44 checks; pressed_at is
not among them. -/
def requiredCheckCols : List String :=
  ["session_id", "test_type", "event_type", "key"]

/-- CHUNK 1 validation (lines 38-44) on the normalised column list:
choose pressed_at if present else timestamp, index it (KeyError when the
fallback is also absent), assign the parsed result to a pressed_at
column, then check the four required columns in order, raising ValueError
naming the first missing one. -/
def validateKeystrokes (cols : List String) : Except LoadError (List String) :=
  let ts := if "pressed_at" ∈ cols then "pressed_at" else "timestamp"
  if ts ∈ cols then
    let cols2 := if "pressed_at" ∈ cols then cols else cols ++ ["pressed_at"]
    match requiredCheckCols.find? (fun c => decide (c ∉ cols2)) with
    | some c => .error (.valueError c)
    | none => .ok cols2
  else .error (.keyError "timestamp")

/-- Scenario F group: five keydowns, one of them Backspace, spanning
exactly 60 seconds. -/
def exampleGroupF : List Event :=
  [mkDown "a" 0, mkDown "b" 15000, mkDown "c" 30000, mkDown "d" 45000,
   mkDown "Backspace" 60000]

/-- A group whose khd sample set is the single value 100. -/
def exampleGroup1 : List Event := [mkDown "a" 0, mkUp "a" 100]

/-- Two events of one test: a field-less keydown at 0 and a keydown in
field q1 at 500. -/
def latEvsEx : List Event :=
  [⟨"s1", "free", none, "keydown", "a", 0⟩,
   ⟨"s1", "free", some "q1", "keydown", "b", 500⟩]

/-! ### Event pairing: key-hold durations (C1) and inter-key intervals (C2) -/

theorem khdScan_eq_find (k : String) (td : Int) :
    ∀ l : List Event, khdScan k td l =
      match l.find? (khdKeyEvent k) with
      | some e2 => if e2.evtype = "keyup" then some (e2.t - td) else none
      | none => none := by
  intro l
  induction l with
  | nil => rfl
  | cons e rest ih =>
    by_cases h1 : e.evtype = "keyup" ∧ e.key = k
    · have hk : khdKeyEvent k e = true := by
        simp [khdKeyEvent, h1.1, h1.2]
      rw [khdScan, if_pos h1, List.find?_cons_of_pos _ hk]
      simp [h1.1]
    · by_cases h2 : e.evtype = "keydown" ∧ e.key = k
      · have hk : khdKeyEvent k e = true := by
          simp [khdKeyEvent, h2.1, h2.2]
        have hup : ¬ e.evtype = "keyup" := by
          rw [h2.1]; decide
        rw [khdScan, if_neg h1, if_pos h2, List.find?_cons_of_pos _ hk]
        simp [hup]
      · have hk : ¬ khdKeyEvent k e = true := by
          simp only [khdKeyEvent, decide_eq_true_eq]
          rintro ⟨hud, hkey⟩
          rcases hud with hu | hd
          · exact h1 ⟨hu, hkey⟩
          · exact h2 ⟨hd, hkey⟩
        rw [khdScan, if_neg h1, if_neg h2, List.find?_cons_of_neg _ hk]
        exact ih

theorem khdEmit_succ (e : Event) (rest : List Event) (i : Nat) :
    khdEmit (e :: rest) (i + 1) = khdEmit rest i := by
  unfold khdEmit
  rw [List.getElem?_cons_succ, List.drop_succ_cons]

theorem khdSpec_cons (e : Event) (rest : List Event) :
    khdSpec (e :: rest) = (khdEmit (e :: rest) 0).toList ++ khdSpec rest := by
  unfold khdSpec
  rw [List.length_cons, List.range_succ_eq_map, List.filterMap_cons, List.filterMap_map]
  have hcomp : (khdEmit (e :: rest)) ∘ Nat.succ = khdEmit rest := by
    funext i
    exact khdEmit_succ e rest i
  rw [hcomp]
  cases h : khdEmit (e :: rest) 0 <;> simp [h]

theorem khdPairs_eq_spec : ∀ evs : List Event, khdPairs evs = khdSpec evs
  | [] => rfl
  | [e] => by
    have h0 : khdEmit [e] 0 = none := by
      by_cases h : e.evtype = "keydown" <;> simp [khdEmit, h]
    rw [khdSpec_cons, h0]
    rfl
  | e :: e' :: rest => by
    have IH := khdPairs_eq_spec (e' :: rest)
    show (if e.evtype = "keydown" then
        match khdScan e.key e.t (e' :: rest) with
        | some d => if 0 < d ∧ d < 2000 then [d] else []
        | none => []
      else []) ++ khdPairs (e' :: rest) = khdSpec (e :: e' :: rest)
    rw [khdSpec_cons, IH]
    congr 1
    by_cases hd : e.evtype = "keydown"
    · rw [if_pos hd, khdScan_eq_find]
      unfold khdEmit
      simp only [List.getElem?_cons_zero, List.drop_succ_cons, List.drop_zero, if_pos hd]
      cases hf : (e' :: rest).find? (khdKeyEvent e.key) with
      | none => simp
      | some e2 =>
        simp only []
        by_cases hup : e2.evtype = "keyup"
        · by_cases hr : 0 < e2.t - e.t ∧ e2.t - e.t < 2000
          · rw [if_pos hup,
              if_pos (show e2.evtype = "keyup" ∧ 0 < e2.t - e.t ∧ e2.t - e.t < 2000 from ⟨hup, hr⟩)]
            show (if 0 < e2.t - e.t ∧ e2.t - e.t < 2000 then [e2.t - e.t] else []) = _
            rw [if_pos hr]
            rfl
          · rw [if_pos hup, if_neg (fun hc => hr hc.2)]
            show (if 0 < e2.t - e.t ∧ e2.t - e.t < 2000 then [e2.t - e.t] else []) = _
            rw [if_neg hr]
            rfl
        · rw [if_neg hup, if_neg (fun hc => hup hc.1)]
          rfl
    · rw [if_neg hd]
      unfold khdEmit
      simp [hd]

/-- C1: for every event sequence of one group, the index-scanning
key-hold-duration pairing of compute_keystroke_metrics emits a sample
exactly when a keydown of key K is first answered, scanning forward, by a
keyup of K before any other keydown of K; the duration is the time
difference, kept only in (0, 2000) ms; a second keydown of K first means
nothing is emitted; matching is per key identity, so simultaneously held
keys match their own keyups (concrete interleaved, out-of-range and
auto-repeat instances included). -/
theorem C1_khd_pairing :
    (∀ evs : List Event, khdPairs evs = khdSpec evs)
  ∧ khdPairs [mkDown "a" 0, mkUp "a" 100] = [100]
  ∧ khdPairs [mkDown "a" 0, mkUp "a" 2500] = []
  ∧ khdPairs [mkDown "a" 0, mkDown "b" 10, mkUp "a" 100, mkUp "b" 150] = [100, 140]
  ∧ khdPairs [mkDown "a" 0, mkDown "a" 40, mkUp "a" 100] = [60] :=
  ⟨khdPairs_eq_spec, by decide, by decide, by decide, by decide⟩

theorem ikiGo_all_keydown :
    ∀ evs : List Event, (∀ e ∈ evs, e.evtype = "keydown") → ikiGo none evs = [] := by
  intro evs h
  induction evs with
  | nil => rfl
  | cons e rest ih =>
    have he : e.evtype = "keydown" := h e (List.mem_cons_self e rest)
    show (if e.evtype = "keyup" then ikiGo (some e.t) rest
      else if e.evtype = "keydown" then ikiGo none rest
      else ikiGo none rest) = []
    rw [if_neg (by rw [he]; decide), if_pos he]
    exact ih (fun x hx => h x (List.mem_cons_of_mem e hx))

/-- C2: the inter-key-interval pass is a single scan with a pending keyup
time: every keyup overwrites the pending time; a keydown with a pending
time p emits t - p (kept only in (0, 5000) ms) and always clears the
pending time; the events down A at 0, up A at 50, down B at 80 yield
exactly one 30 ms sample; consecutive keydowns with no intervening keyup
yield no sample. -/
theorem C2_iki_pairing :
    (∀ (last : Option Int) (e : Event) (rest : List Event), e.evtype = "keyup" →
        ikiGo last (e :: rest) = ikiGo (some e.t) rest)
  ∧ (∀ (p : Int) (e : Event) (rest : List Event), e.evtype = "keydown" →
        ikiGo (some p) (e :: rest)
          = (if 0 < e.t - p ∧ e.t - p < 5000 then [e.t - p] else []) ++ ikiGo none rest)
  ∧ ikiPairs [mkDown "A" 0, mkUp "A" 50, mkDown "B" 80] = [30]
  ∧ (∀ evs : List Event, (∀ e ∈ evs, e.evtype = "keydown") → ikiPairs evs = []) := by
  refine ⟨?_, ?_, by decide, ikiGo_all_keydown⟩
  · intro last e rest h
    show (if e.evtype = "keyup" then ikiGo (some e.t) rest
      else if e.evtype = "keydown" then
        match last with
        | some lt => (if 0 < e.t - lt ∧ e.t - lt < 5000 then [e.t - lt] else []) ++ ikiGo none rest
        | none => ikiGo none rest
      else ikiGo last rest) = ikiGo (some e.t) rest
    rw [if_pos h]
  · intro p e rest h
    show (if e.evtype = "keyup" then ikiGo (some e.t) rest
      else if e.evtype = "keydown" then
        (if 0 < e.t - p ∧ e.t - p < 5000 then [e.t - p] else []) ++ ikiGo none rest
      else ikiGo (some p) rest) = _
    rw [if_neg (by rw [h]; decide), if_pos h]

/-- Witness for C2: the keyup-overwrite clause and the
consecutive-keydown clause applied at concrete inputs. -/
theorem C2_iki_pairing_witness :
    ikiGo (some 3) [mkUp "A" 50] = ikiGo (some 50) []
  ∧ ikiPairs [mkDown "A" 0, mkDown "A" 10] = [] :=
  ⟨C2_iki_pairing.1 (some 3) (mkUp "A" 50) [] (by decide),
   C2_iki_pairing.2.2.2 [mkDown "A" 0, mkDown "A" 10] (by decide)⟩

/-! ### min / max helpers for numpy-style reductions -/

theorem foldl_min_le_init (xs : List Int) : ∀ a : Int, xs.foldl min a ≤ a := by
  induction xs with
  | nil => intro a; exact le_refl a
  | cons x xs ih =>
    intro a
    exact le_trans (ih (min a x)) (min_le_left a x)

theorem foldl_min_le_mem (xs : List Int) : ∀ (a x : Int), x ∈ xs → xs.foldl min a ≤ x := by
  induction xs with
  | nil =>
    intro a x hx
    exact absurd hx (List.not_mem_nil x)
  | cons y ys ih =>
    intro a x hx
    rcases List.mem_cons.mp hx with h | h
    · subst h
      exact le_trans (foldl_min_le_init ys (min a x)) (min_le_right a x)
    · exact ih (min a y) x h

theorem foldl_min_mem (xs : List Int) : ∀ a : Int, xs.foldl min a = a ∨ xs.foldl min a ∈ xs := by
  induction xs with
  | nil => intro a; exact Or.inl rfl
  | cons x xs ih =>
    intro a
    rw [List.foldl_cons]
    rcases ih (min a x) with h | h
    · rcases min_choice a x with h1 | h1
      · left; rw [h, h1]
      · right; rw [h, h1]; exact List.mem_cons_self x xs
    · right; exact List.mem_cons_of_mem x h

theorem listMin_le {xs : List Int} {x : Int} (hx : x ∈ xs) : listMin xs ≤ x := by
  cases xs with
  | nil => exact absurd hx (List.not_mem_nil x)
  | cons y ys =>
    show ys.foldl min y ≤ x
    rcases List.mem_cons.mp hx with h | h
    · subst h; exact foldl_min_le_init ys x
    · exact foldl_min_le_mem ys y x h

theorem listMin_mem {xs : List Int} (h : xs ≠ []) : listMin xs ∈ xs := by
  cases xs with
  | nil => exact absurd rfl h
  | cons y ys =>
    show ys.foldl min y ∈ y :: ys
    rcases foldl_min_mem ys y with h1 | h1
    · rw [h1]; exact List.mem_cons_self y ys
    · exact List.mem_cons_of_mem y h1

theorem foldl_max_init_le (xs : List Int) : ∀ a : Int, a ≤ xs.foldl max a := by
  induction xs with
  | nil => intro a; exact le_refl a
  | cons x xs ih =>
    intro a
    exact le_trans (le_max_left a x) (ih (max a x))

theorem foldl_max_mem_le (xs : List Int) : ∀ (a x : Int), x ∈ xs → x ≤ xs.foldl max a := by
  induction xs with
  | nil =>
    intro a x hx
    exact absurd hx (List.not_mem_nil x)
  | cons y ys ih =>
    intro a x hx
    rcases List.mem_cons.mp hx with h | h
    · subst h
      exact le_trans (le_max_right a x) (foldl_max_init_le ys (max a x))
    · exact ih (max a y) x h

theorem listMax_ge {xs : List Int} {x : Int} (hx : x ∈ xs) : x ≤ listMax xs := by
  cases xs with
  | nil => exact absurd hx (List.not_mem_nil x)
  | cons y ys =>
    show x ≤ ys.foldl max y
    rcases List.mem_cons.mp hx with h | h
    · subst h; exact foldl_max_init_le ys x
    · exact foldl_max_mem_le ys y x h

theorem listMin_le_listMax {xs : List Int} (h : xs ≠ []) : listMin xs ≤ listMax xs := by
  cases xs with
  | nil => exact absurd rfl h
  | cons y ys =>
    exact le_trans (listMin_le (List.mem_cons_self y ys)) (listMax_ge (List.mem_cons_self y ys))

theorem durationMs_nonneg (grp : List Event) : 0 ≤ durationMs grp := by
  unfold durationMs
  by_cases h : 2 ≤ grp.length
  · rw [if_pos h]
    have hne : grp.map (fun e => e.t) ≠ [] := by
      intro hc
      rw [List.map_eq_nil_iff] at hc
      subst hc
      simp at h
    exact sub_nonneg.mpr (listMin_le_listMax hne)
  · rw [if_neg h]

/-! ### Aggregation rows: C4, C5, C6, C9 -/

theorem ikiPairs_single (e : Event) : ikiPairs [e] = [] := by
  show (if e.evtype = "keyup" then ikiGo (some e.t) []
    else if e.evtype = "keydown" then ikiGo none []
    else ikiGo none []) = []
  by_cases h1 : e.evtype = "keyup"
  · rw [if_pos h1]
    rfl
  · rw [if_neg h1]
    by_cases h2 : e.evtype = "keydown"
    · rw [if_pos h2]
      rfl
    · rw [if_neg h2]
      rfl

/-- C4: a degenerate group is not an error: duration_sec is 0 whenever
the group has fewer than 2 events, a group of 0 or 1 events produces no
khd or iki pairs, and the statistical fields (mean, sd, cv of both sample
kinds) are none, not zero, whenever their sample set is empty, as is cpm
for a short group. -/
theorem C4_degenerate_group (sid tt : String) (grp : List Event) (khd iki : List Int) :
    (grp.length < 2 → (aggRow sid tt grp khd iki).duration_sec = 0)
  ∧ (grp.length ≤ 1 → khdPairs grp = [] ∧ ikiPairs grp = [])
  ∧ (khd = [] → (aggRow sid tt grp khd iki).mean_khd_ms = none
      ∧ (aggRow sid tt grp khd iki).sd_khd_ms = none
      ∧ (aggRow sid tt grp khd iki).cv_khd = none)
  ∧ (iki = [] → (aggRow sid tt grp khd iki).mean_iki_ms = none
      ∧ (aggRow sid tt grp khd iki).sd_iki_ms = none
      ∧ (aggRow sid tt grp khd iki).cv_iki = none)
  ∧ (grp.length < 2 → (aggRow sid tt grp khd iki).cpm = none) := by
  refine ⟨?_, ?_, ?_, ?_, ?_⟩
  · intro h
    have hd : durationMs grp = 0 := by
      unfold durationMs
      rw [if_neg (by omega)]
    simp [aggRow, hd]
  · intro h
    cases grp with
    | nil => exact ⟨rfl, rfl⟩
    | cons e rest =>
      cases rest with
      | nil => exact ⟨rfl, ikiPairs_single e⟩
      | cons e2 rest2 =>
        simp only [List.length_cons] at h
        omega
  · intro h
    subst h
    refine ⟨?_, ?_, ?_⟩ <;> simp [aggRow]
  · intro h
    subst h
    refine ⟨?_, ?_, ?_⟩ <;> simp [aggRow]
  · intro h
    have hd : durationMs grp = 0 := by
      unfold durationMs
      rw [if_neg (by omega)]
    simp [aggRow, hd]

/-- Witness for C4: scenario D, a group with exactly one event. -/
theorem C4_degenerate_group_witness :
    (aggRow "s1" "free" [mkDown "a" 0] [] []).duration_sec = 0
  ∧ (khdPairs [mkDown "a" 0] = [] ∧ ikiPairs [mkDown "a" 0] = [])
  ∧ (aggRow "s1" "free" [mkDown "a" 0] [] []).cpm = none := by
  have h := C4_degenerate_group "s1" "free" [mkDown "a" 0] [] []
  exact ⟨h.1 (by decide), h.2.1 (by decide), h.2.2.2.2 (by decide)⟩

theorem cpm_none_iff (d : Int) (x : ℚ) (hd : 0 ≤ d) :
    ((if 0 < d then some x else none) = none ↔ (d : ℚ) / 1000 = 0) := by
  rw [div_eq_zero_iff]
  constructor
  · intro h
    by_cases hpos : 0 < d
    · rw [if_pos hpos] at h
      exact absurd h (by simp)
    · left
      exact_mod_cast (by omega : d = 0)
  · intro h
    have hd0 : d = 0 := by
      rcases h with h | h
      · exact_mod_cast h
      · norm_num at h
    rw [if_neg (by omega)]

theorem cpm_val_eq (d : Int) (nk nb : ℚ) (hd : 0 ≤ d) (h : ¬ (d : ℚ) / 1000 = 0) :
    (if 0 < d then some ((nk - nb) / ((d : ℚ) / 60000)) else none)
      = some ((nk - nb) / (((d : ℚ) / 1000) / 60)) := by
  have hd0 : d ≠ 0 := by
    intro hc
    apply h
    rw [hc]
    norm_num
  rw [if_pos (by omega)]
  have hdd : ((d : ℚ) / 1000) / 60 = (d : ℚ) / 60000 := by
    rw [div_div]
    norm_num
  rw [hdd]

/-- C5: in every row kind (per-test and per-session-overall rows via
_agg_row, per-field rows alike), cpm is absent exactly when duration_sec
is 0, and otherwise equals (n_keydowns - backspace_count) divided by
(duration_sec / 60); scenario F gives cpm = 4. -/
theorem C5_cpm (sid tt fn : String) (grp : List Event) (khd iki : List Int) (ts : Int) :
    ((aggRow sid tt grp khd iki).cpm = none ↔ (aggRow sid tt grp khd iki).duration_sec = 0)
  ∧ ((aggRow sid tt grp khd iki).duration_sec ≠ 0 →
      (aggRow sid tt grp khd iki).cpm
        = some ((((aggRow sid tt grp khd iki).n_keydowns : ℚ)
            - ((aggRow sid tt grp khd iki).backspace_count : ℚ))
          / ((aggRow sid tt grp khd iki).duration_sec / 60)))
  ∧ ((fieldRow sid tt fn grp ts).cpm = none ↔ (fieldRow sid tt fn grp ts).duration_sec = 0)
  ∧ ((fieldRow sid tt fn grp ts).duration_sec ≠ 0 →
      (fieldRow sid tt fn grp ts).cpm
        = some ((((fieldRow sid tt fn grp ts).n_keydowns : ℚ)
            - ((fieldRow sid tt fn grp ts).backspace_count : ℚ))
          / ((fieldRow sid tt fn grp ts).duration_sec / 60)))
  ∧ (aggRow "s1" "free" exampleGroupF [] []).cpm = some 4 := by
  refine ⟨?_, ?_, ?_, ?_, ?_⟩
  · simp only [aggRow]
    exact cpm_none_iff (durationMs grp) _ (durationMs_nonneg grp)
  · simp only [aggRow]
    intro h
    exact cpm_val_eq (durationMs grp) _ _ (durationMs_nonneg grp) h
  · simp only [fieldRow]
    exact cpm_none_iff (durationMs grp) _ (durationMs_nonneg grp)
  · simp only [fieldRow]
    intro h
    exact cpm_val_eq (durationMs grp) _ _ (durationMs_nonneg grp) h
  · have hd : durationMs exampleGroupF = 60000 := by decide
    have hk : countKeydown exampleGroupF = 5 := by decide
    have hb : countBackspace exampleGroupF = 1 := by decide
    simp only [aggRow, hd, hk, hb]
    norm_num

/-- Witness for C5: scenario F, five keydowns with one Backspace over 60
seconds, cpm = (5 - 1) / 1. -/
theorem C5_cpm_witness :
    (aggRow "s1" "free" exampleGroupF [] []).cpm
      = some ((((aggRow "s1" "free" exampleGroupF [] []).n_keydowns : ℚ)
          - ((aggRow "s1" "free" exampleGroupF [] []).backspace_count : ℚ))
        / ((aggRow "s1" "free" exampleGroupF [] []).duration_sec / 60)) :=
  (C5_cpm "s1" "free" "q1" exampleGroupF [] [] 0).2.1 (by
    have hd : durationMs exampleGroupF = 60000 := by decide
    simp only [aggRow, hd]
    norm_num)

theorem length_filter_imp {α : Type} (p q : α → Bool) (l : List α)
    (h : ∀ a, p a = true → q a = true) :
    (l.filter p).length ≤ (l.filter q).length := by
  induction l with
  | nil => exact le_refl 0
  | cons x xs ih =>
    by_cases hx : p x = true
    · rw [List.filter_cons_of_pos hx, List.filter_cons_of_pos (h x hx)]
      simpa using ih
    · rw [List.filter_cons_of_neg (by simpa using hx)]
      by_cases hq : q x = true
      · rw [List.filter_cons_of_pos hq]
        exact le_trans ih (by simp)
      · rw [List.filter_cons_of_neg (by simpa using hq)]
        exact ih

/-- C6: backspace_count counts exactly the keydown events whose key is
the designated Backspace key, never exceeds n_keydowns, and
backspace_rate is backspace_count / n_keydowns with the defined value 0
(not absent) when n_keydowns is 0; scenario F gives rate 1/5 = 0.2. -/
theorem C6_backspace (sid tt : String) (grp : List Event) (khd iki : List Int) :
    (aggRow sid tt grp khd iki).backspace_count
        = grp.countP (fun e => decide (e.evtype = "keydown" ∧ e.key = "Backspace"))
  ∧ (aggRow sid tt grp khd iki).backspace_count ≤ (aggRow sid tt grp khd iki).n_keydowns
  ∧ (aggRow sid tt grp khd iki).backspace_rate
      = (if (aggRow sid tt grp khd iki).n_keydowns = 0 then 0
         else ((aggRow sid tt grp khd iki).backspace_count : ℚ)
            / ((aggRow sid tt grp khd iki).n_keydowns : ℚ))
  ∧ (aggRow "s1" "free" exampleGroupF [] []).backspace_rate = 1 / 5 := by
  refine ⟨?_, ?_, ?_, ?_⟩
  · simp only [aggRow, countBackspace]
    rw [List.countP_eq_length_filter]
  · simp only [aggRow, countBackspace, countKeydown]
    apply length_filter_imp
    intro a ha
    simp only [decide_eq_true_eq] at ha ⊢
    exact ha.1
  · simp only [aggRow]
    rcases eq_or_ne (countKeydown grp) 0 with h | h
    · simp [h]
    · simp [h]
  · have hk : countKeydown exampleGroupF = 5 := by decide
    have hb : countBackspace exampleGroupF = 1 := by decide
    simp only [aggRow, hk, hb]
    norm_num

/-- C9: on the same group and sample multiset the two aggregations use
different std estimators: the metrics table follows pandas Series.std
(sample std, ddof 1, NaN on a single sample) while the per-field table
follows numpy std (population std, ddof 0, 0 on a single sample), so the
sd fields differ: a single sample gives NaN (none) against 0, and on the
two samples 0 and 100 the variances divide by 1 against 2 (5000 versus
2500), whose square roots also differ. -/
theorem C9_std_policy_divergence :
    pandasStdSq [100] = none
  ∧ numpyStdSq [100] = 0
  ∧ (aggRow "s1" "free" exampleGroup1
      (khdPairs exampleGroup1) (ikiPairs exampleGroup1)).sd_khd_ms = none
  ∧ (fieldRow "s1" "free" "q1" exampleGroup1 0).sd_khd_ms = some 0
  ∧ pandasStdSq [0, 100] = some 5000
  ∧ numpyStdSq [0, 100] = 2500
  ∧ Real.sqrt ((2500 : ℚ)) = 50
  ∧ Real.sqrt ((2500 : ℚ)) < Real.sqrt ((5000 : ℚ)) := by
  have hk1 : khdPairs exampleGroup1 = [100] := by decide
  refine ⟨by decide, ?_, by decide, ?_, ?_, ?_, ?_, ?_⟩
  · norm_num [numpyStdSq, sqDevSum, meanQ]
  · simp only [fieldRow, hk1]
    norm_num [numpyStdSq, sqDevSum, meanQ]
  · norm_num [pandasStdSq, sqDevSum, meanQ]
  · norm_num [numpyStdSq, sqDevSum, meanQ]
  · rw [show (((2500 : ℚ)) : ℝ) = 50 ^ 2 by norm_num]
    exact Real.sqrt_sq (by norm_num)
  · apply Real.sqrt_lt_sqrt
    · norm_num
    · norm_num

/-! ### Pass 1/2 ignore field_name: machinery for C7 -/

theorem khdScan_map_setField (g : Option String → Option String) (k : String) (td : Int) :
    ∀ l : List Event, khdScan k td (l.map (setField g)) = khdScan k td l := by
  intro l
  induction l with
  | nil => rfl
  | cons e rest ih =>
    show (if e.evtype = "keyup" ∧ e.key = k then some (e.t - td)
      else if e.evtype = "keydown" ∧ e.key = k then none
      else khdScan k td (rest.map (setField g)))
      = (if e.evtype = "keyup" ∧ e.key = k then some (e.t - td)
      else if e.evtype = "keydown" ∧ e.key = k then none
      else khdScan k td rest)
    by_cases h1 : e.evtype = "keyup" ∧ e.key = k
    · rw [if_pos h1, if_pos h1]
    · rw [if_neg h1, if_neg h1]
      by_cases h2 : e.evtype = "keydown" ∧ e.key = k
      · rw [if_pos h2, if_pos h2]
      · rw [if_neg h2, if_neg h2]
        exact ih

theorem khdPairs_map_setField (g : Option String → Option String) :
    ∀ l : List Event, khdPairs (l.map (setField g)) = khdPairs l
  | [] => rfl
  | [_] => rfl
  | e :: e' :: rest => by
    show (if e.evtype = "keydown" then
        match khdScan e.key e.t ((e' :: rest).map (setField g)) with
        | some d => if 0 < d ∧ d < 2000 then [d] else []
        | none => []
      else []) ++ khdPairs ((e' :: rest).map (setField g))
      = (if e.evtype = "keydown" then
        match khdScan e.key e.t (e' :: rest) with
        | some d => if 0 < d ∧ d < 2000 then [d] else []
        | none => []
      else []) ++ khdPairs (e' :: rest)
    rw [khdScan_map_setField, khdPairs_map_setField g (e' :: rest)]

theorem ikiGo_map_setField (g : Option String → Option String) :
    ∀ (l : List Event) (last : Option Int), ikiGo last (l.map (setField g)) = ikiGo last l := by
  intro l
  induction l with
  | nil => intro last; rfl
  | cons e rest ih =>
    intro last
    show (if e.evtype = "keyup" then ikiGo (some e.t) (rest.map (setField g))
      else if e.evtype = "keydown" then
        match last with
        | some lt => (if 0 < e.t - lt ∧ e.t - lt < 5000 then [e.t - lt] else [])
            ++ ikiGo none (rest.map (setField g))
        | none => ikiGo none (rest.map (setField g))
      else ikiGo last (rest.map (setField g)))
      = (if e.evtype = "keyup" then ikiGo (some e.t) rest
      else if e.evtype = "keydown" then
        match last with
        | some lt => (if 0 < e.t - lt ∧ e.t - lt < 5000 then [e.t - lt] else []) ++ ikiGo none rest
        | none => ikiGo none rest
      else ikiGo last rest)
    by_cases h1 : e.evtype = "keyup"
    · rw [if_pos h1, if_pos h1, ih]
    · rw [if_neg h1, if_neg h1]
      by_cases h2 : e.evtype = "keydown"
      · rw [if_pos h2, if_pos h2]
        cases last with
        | some lt => rw [ih]
        | none => rw [ih]
      · rw [if_neg h2, if_neg h2, ih]

theorem ikiPairs_map_setField (g : Option String → Option String) (l : List Event) :
    ikiPairs (l.map (setField g)) = ikiPairs l :=
  ikiGo_map_setField g l none

theorem orderedInsert_map_setField (g : Option String → Option String) (e : Event) :
    ∀ l : List Event,
      List.orderedInsert (fun a b => a.t ≤ b.t) (setField g e) (l.map (setField g))
        = (List.orderedInsert (fun a b => a.t ≤ b.t) e l).map (setField g)
  | [] => rfl
  | x :: xs => by
    show (if e.t ≤ x.t then setField g e :: setField g x :: xs.map (setField g)
      else setField g x
        :: List.orderedInsert (fun a b => a.t ≤ b.t) (setField g e) (xs.map (setField g)))
      = (List.orderedInsert (fun a b => a.t ≤ b.t) e (x :: xs)).map (setField g)
    by_cases h : e.t ≤ x.t
    · rw [if_pos h]
      have hins : List.orderedInsert (fun a b => a.t ≤ b.t) e (x :: xs) = e :: x :: xs := by
        show (if e.t ≤ x.t then e :: x :: xs else x :: List.orderedInsert (fun a b => a.t ≤ b.t) e xs)
          = e :: x :: xs
        rw [if_pos h]
      rw [hins]
      rfl
    · rw [if_neg h]
      have hins : List.orderedInsert (fun a b => a.t ≤ b.t) e (x :: xs)
          = x :: List.orderedInsert (fun a b => a.t ≤ b.t) e xs := by
        show (if e.t ≤ x.t then e :: x :: xs else x :: List.orderedInsert (fun a b => a.t ≤ b.t) e xs)
          = x :: List.orderedInsert (fun a b => a.t ≤ b.t) e xs
        rw [if_neg h]
      rw [hins, List.map_cons, orderedInsert_map_setField g e xs]

theorem sortByTime_map_setField (g : Option String → Option String) :
    ∀ l : List Event, sortByTime (l.map (setField g)) = (sortByTime l).map (setField g)
  | [] => rfl
  | x :: xs => by
    show List.orderedInsert (fun a b => a.t ≤ b.t) (setField g x)
        (List.insertionSort (fun a b => a.t ≤ b.t) (xs.map (setField g)))
      = (List.orderedInsert (fun a b => a.t ≤ b.t) x
          (List.insertionSort (fun a b => a.t ≤ b.t) xs)).map (setField g)
    rw [show List.insertionSort (fun a b => a.t ≤ b.t) (xs.map (setField g))
        = (List.insertionSort (fun a b => a.t ≤ b.t) xs).map (setField g)
      from sortByTime_map_setField g xs]
    exact orderedInsert_map_setField g x (List.insertionSort (fun a b => a.t ≤ b.t) xs)

theorem filter_map_setField (g : Option String → Option String) (p : Event → Bool)
    (hp : ∀ e, p (setField g e) = p e) (l : List Event) :
    (l.map (setField g)).filter p = (l.filter p).map (setField g) := by
  rw [List.filter_map]
  have hcomp : (p ∘ setField g) = p := by
    funext e
    exact hp e
  rw [hcomp]

theorem groupOf_map_setField (g : Option String → Option String) (evs : List Event)
    (sid tt : String) :
    groupOf (evs.map (setField g)) sid tt = (groupOf evs sid tt).map (setField g) := by
  unfold groupOf
  rw [filter_map_setField g (fun e => decide (e.session = sid ∧ e.test = tt)) (fun e => rfl),
    sortByTime_map_setField]

theorem sessionGroup_map_setField (g : Option String → Option String) (evs : List Event)
    (sid : String) :
    sessionGroup (evs.map (setField g)) sid = (sessionGroup evs sid).map (setField g) := by
  unfold sessionGroup
  rw [filter_map_setField g (fun e => decide (e.session = sid)) (fun e => rfl),
    sortByTime_map_setField]

theorem aggRow_map_setField (g : Option String → Option String) (sid tt : String)
    (grp : List Event) (khd iki : List Int) :
    aggRow sid tt (grp.map (setField g)) khd iki = aggRow sid tt grp khd iki := by
  have hmap : (grp.map (setField g)).map (fun e => e.t) = grp.map (fun e => e.t) := by
    rw [List.map_map]
    rfl
  have h1 : durationMs (grp.map (setField g)) = durationMs grp := by
    unfold durationMs maxTime minTime
    rw [List.length_map, hmap]
  have h2 : countKeydown (grp.map (setField g)) = countKeydown grp := by
    unfold countKeydown
    rw [filter_map_setField g (fun e => decide (e.evtype = "keydown")) (fun e => rfl),
      List.length_map]
  have h3 : countBackspace (grp.map (setField g)) = countBackspace grp := by
    unfold countBackspace
    rw [filter_map_setField g (fun e => decide (e.evtype = "keydown" ∧ e.key = "Backspace"))
      (fun e => rfl), List.length_map]
  simp only [aggRow, h1, h2, h3, List.length_map]

theorem testRow_map_setField (g : Option String → Option String) (evs : List Event)
    (sid tt : String) :
    testRow (evs.map (setField g)) sid tt = testRow evs sid tt := by
  show aggRow sid tt (groupOf (evs.map (setField g)) sid tt)
      (khdPairs (groupOf (evs.map (setField g)) sid tt))
      (ikiPairs (groupOf (evs.map (setField g)) sid tt))
    = aggRow sid tt (groupOf evs sid tt) (khdPairs (groupOf evs sid tt))
      (ikiPairs (groupOf evs sid tt))
  rw [groupOf_map_setField, khdPairs_map_setField, ikiPairs_map_setField, aggRow_map_setField]

theorem overallRow_map_setField (g : Option String → Option String) (evs : List Event)
    (sid : String) :
    overallRow (evs.map (setField g)) sid = overallRow evs sid := by
  show aggRow sid "overall" (sessionGroup (evs.map (setField g)) sid)
      (khdPairs (sessionGroup (evs.map (setField g)) sid))
      (ikiPairs (sessionGroup (evs.map (setField g)) sid))
    = aggRow sid "overall" (sessionGroup evs sid) (khdPairs (sessionGroup evs sid))
      (ikiPairs (sessionGroup evs sid))
  rw [sessionGroup_map_setField, khdPairs_map_setField, ikiPairs_map_setField,
    aggRow_map_setField]

theorem testKeys_map_setField (g : Option String → Option String) (evs : List Event) :
    testKeys (evs.map (setField g)) = testKeys evs := by
  unfold testKeys
  rw [List.map_map]
  rfl

theorem sessionKeys_map_setField (g : Option String → Option String) (evs : List Event) :
    sessionKeys (evs.map (setField g)) = sessionKeys evs := by
  unfold sessionKeys
  rw [List.map_map]
  rfl

theorem metricsTable_map_setField (g : Option String → Option String) (evs : List Event) :
    metricsTable (evs.map (setField g)) = metricsTable evs := by
  unfold metricsTable
  rw [testKeys_map_setField, sessionKeys_map_setField]
  have hf1 : (fun k : String × String => testRow (evs.map (setField g)) k.1 k.2)
      = (fun k : String × String => testRow evs k.1 k.2) := by
    funext k
    exact testRow_map_setField g evs k.1 k.2
  have hf2 : (fun s => overallRow (evs.map (setField g)) s) = (fun s => overallRow evs s) := by
    funext s
    exact overallRow_map_setField g evs s
  rw [hf1, hf2]

/-! ### Per-field table membership: C7, C8, C10 -/

theorem mem_byFieldTable {evs : List Event} {r : FieldRow} (h : r ∈ byFieldTable evs) :
    ∃ k ∈ fieldKeysOf evs, stripStr k.2.2 ≠ ""
      ∧ (fieldGroup evs k.1 k.2.1 k.2.2).length ≠ 0
      ∧ r = fieldRow k.1 k.2.1 k.2.2 (fieldGroup evs k.1 k.2.1 k.2.2)
          (testStartOr evs k.1 k.2.1 (fieldGroup evs k.1 k.2.1 k.2.2)) := by
  unfold byFieldTable at h
  rw [List.mem_filterMap] at h
  obtain ⟨k, hk, hfk⟩ := h
  by_cases h1 : stripStr k.2.2 = ""
  · rw [if_pos h1] at hfk
    exact absurd hfk (by simp)
  · rw [if_neg h1] at hfk
    by_cases h2 : (fieldGroup evs k.1 k.2.1 k.2.2).length = 0
    · rw [if_pos h2] at hfk
      exact absurd hfk (by simp)
    · rw [if_neg h2] at hfk
      exact ⟨k, hk, h1, h2, (Option.some.inj hfk).symm⟩

theorem fieldKeysOf_mem {evs : List Event} {k : String × String × String}
    (h : k ∈ fieldKeysOf evs) :
    ∃ e ∈ evs, e.session = k.1 ∧ e.test = k.2.1 ∧ e.field = some k.2.2 := by
  unfold fieldKeysOf at h
  rw [List.mem_dedup, List.mem_filterMap] at h
  obtain ⟨e, he, hfe⟩ := h
  cases hf : e.field with
  | none =>
    rw [hf] at hfe
    exact absurd hfe (by simp)
  | some f =>
    rw [hf] at hfe
    have hk := Option.some.inj hfe
    subst hk
    exact ⟨e, he, rfl, rfl, hf⟩

theorem byFieldTable_mem_of_key (evs : List Event) (k : String × String × String)
    (hk : k ∈ fieldKeysOf evs) (htrim : ¬ stripStr k.2.2 = "")
    (hlen : (fieldGroup evs k.1 k.2.1 k.2.2).length ≠ 0) :
    fieldRow k.1 k.2.1 k.2.2 (fieldGroup evs k.1 k.2.1 k.2.2)
      (testStartOr evs k.1 k.2.1 (fieldGroup evs k.1 k.2.1 k.2.2)) ∈ byFieldTable evs := by
  unfold byFieldTable
  rw [List.mem_filterMap]
  refine ⟨k, hk, ?_⟩
  show (if stripStr k.2.2 = "" then none
    else if (fieldGroup evs k.1 k.2.1 k.2.2).length = 0 then none
    else some (fieldRow k.1 k.2.1 k.2.2 (fieldGroup evs k.1 k.2.1 k.2.2)
      (testStartOr evs k.1 k.2.1 (fieldGroup evs k.1 k.2.1 k.2.2))))
    = some (fieldRow k.1 k.2.1 k.2.2 (fieldGroup evs k.1 k.2.1 k.2.2)
      (testStartOr evs k.1 k.2.1 (fieldGroup evs k.1 k.2.1 k.2.2)))
  rw [if_neg htrim, if_neg hlen]

/-- C7: the per-field pass excludes exactly the groups whose field_name
is absent (fieldKeysOf only yields present fields) or whitespace-blank:
every produced row has a non-blank stripped field_name, a whitespace-only
field_name yields no row at all, every present non-blank key yields its
row, and the per-test and per-session-overall passes are untouched by
field_name: rewriting every field_name leaves the metrics table equal. -/
theorem C7_field_filter :
    (∀ (evs : List Event) (r : FieldRow), r ∈ byFieldTable evs → stripStr r.field_name ≠ "")
  ∧ byFieldTable [⟨"s1", "free", some "  ", "keydown", "a", 0⟩] = []
  ∧ (∀ (g : Option String → Option String) (evs : List Event),
      metricsTable (evs.map (setField g)) = metricsTable evs)
  ∧ (∀ (evs : List Event) (k : String × String × String),
      k ∈ fieldKeysOf evs → stripStr k.2.2 ≠ "" →
      ∃ r ∈ byFieldTable evs, r.session_id = k.1 ∧ r.test_type = k.2.1
        ∧ r.field_name = k.2.2) := by
  refine ⟨?_, by decide, metricsTable_map_setField, ?_⟩
  · intro evs r hr
    obtain ⟨k, hk, htrim, hlen, hr2⟩ := mem_byFieldTable hr
    rw [hr2]
    exact htrim
  · intro evs k hk htrim
    obtain ⟨e, he, h1, h2, h3⟩ := fieldKeysOf_mem hk
    have hmem : e ∈ fieldGroup evs k.1 k.2.1 k.2.2 := by
      unfold fieldGroup sortByTime
      rw [List.mem_insertionSort, List.mem_filter]
      exact ⟨he, by simp [h1, h2, h3]⟩
    have hlen : (fieldGroup evs k.1 k.2.1 k.2.2).length ≠ 0 := by
      intro hc
      rw [List.length_eq_zero] at hc
      rw [hc] at hmem
      exact absurd hmem (List.not_mem_nil e)
    exact ⟨fieldRow k.1 k.2.1 k.2.2 (fieldGroup evs k.1 k.2.1 k.2.2)
        (testStartOr evs k.1 k.2.1 (fieldGroup evs k.1 k.2.1 k.2.2)),
      byFieldTable_mem_of_key evs k hk htrim hlen, rfl, rfl, rfl⟩

/-- Witness for C7: a present non-blank field key of a concrete table
produces its per-field row. -/
theorem C7_field_filter_witness :
    ∃ r ∈ byFieldTable latEvsEx, r.session_id = "s1" ∧ r.test_type = "free"
      ∧ r.field_name = "q1" :=
  C7_field_filter.2.2.2 latEvsEx ("s1", "free", "q1") (by decide) (by decide)

/-- C8: every per-field row reports first_key_latency_ms as the group
minimum timestamp minus the whole-test minimum timestamp (precomputed
over every event of the enclosing (session_id, test_type) test), with no
clamping. -/
theorem C8_first_key_latency (evs : List Event) (r : FieldRow) (h : r ∈ byFieldTable evs) :
    r.first_key_latency_ms
      = minTime (fieldGroup evs r.session_id r.test_type r.field_name)
        - testStartMs evs r.session_id r.test_type := by
  obtain ⟨k, hk, htrim, hlen, hr⟩ := mem_byFieldTable h
  obtain ⟨e, he, h1, h2, h3⟩ := fieldKeysOf_mem hk
  have hany : evs.any (fun e => decide (e.session = k.1 ∧ e.test = k.2.1)) = true := by
    rw [List.any_eq_true]
    exact ⟨e, he, by simp [h1, h2]⟩
  rw [hr]
  show minTime (fieldGroup evs k.1 k.2.1 k.2.2)
      - testStartOr evs k.1 k.2.1 (fieldGroup evs k.1 k.2.1 k.2.2)
    = minTime (fieldGroup evs k.1 k.2.1 k.2.2) - testStartMs evs k.1 k.2.1
  unfold testStartOr
  rw [if_pos hany]

/-- Witness for C8 on a concrete two-event test. -/
theorem C8_first_key_latency_witness :
    (fieldRow "s1" "free" "q1" (fieldGroup latEvsEx "s1" "free" "q1")
        (testStartOr latEvsEx "s1" "free" (fieldGroup latEvsEx "s1" "free" "q1"))).first_key_latency_ms
      = minTime (fieldGroup latEvsEx "s1" "free" "q1") - testStartMs latEvsEx "s1" "free" :=
  C8_first_key_latency latEvsEx _
    (byFieldTable_mem_of_key latEvsEx ("s1", "free", "q1") (by decide) (by decide) (by decide))

/-- C10: first_key_latency_ms is never negative: the per-test minimum is
taken over a superset of the field group inside the same input table. -/
theorem C10_latency_nonneg (evs : List Event) (r : FieldRow) (h : r ∈ byFieldTable evs) :
    0 ≤ r.first_key_latency_ms := by
  obtain ⟨k, hk, htrim, hlen, hr⟩ := mem_byFieldTable h
  obtain ⟨e, he, h1, h2, h3⟩ := fieldKeysOf_mem hk
  have hany : evs.any (fun e => decide (e.session = k.1 ∧ e.test = k.2.1)) = true := by
    rw [List.any_eq_true]
    exact ⟨e, he, by simp [h1, h2]⟩
  rw [hr]
  show 0 ≤ minTime (fieldGroup evs k.1 k.2.1 k.2.2)
      - testStartOr evs k.1 k.2.1 (fieldGroup evs k.1 k.2.1 k.2.2)
  unfold testStartOr
  rw [if_pos hany]
  have hgrpne : fieldGroup evs k.1 k.2.1 k.2.2 ≠ [] := by
    intro hc
    rw [hc] at hlen
    exact hlen rfl
  have hmapne : (fieldGroup evs k.1 k.2.1 k.2.2).map (fun e => e.t) ≠ [] := by
    intro hc
    rw [List.map_eq_nil_iff] at hc
    exact hgrpne hc
  have hmm : minTime (fieldGroup evs k.1 k.2.1 k.2.2)
      ∈ (fieldGroup evs k.1 k.2.1 k.2.2).map (fun e => e.t) := listMin_mem hmapne
  rw [List.mem_map] at hmm
  obtain ⟨e1, he1, ht1⟩ := hmm
  have he1f : e1 ∈ evs.filter
      (fun e => decide (e.session = k.1 ∧ e.test = k.2.1 ∧ e.field = some k.2.2)) := by
    have := he1
    unfold fieldGroup sortByTime at this
    rw [List.mem_insertionSort] at this
    exact this
  rw [List.mem_filter] at he1f
  obtain ⟨he1evs, hpred⟩ := he1f
  simp only [decide_eq_true_eq] at hpred
  have hstart : testStartMs evs k.1 k.2.1 ≤ e1.t := by
    unfold testStartMs
    apply listMin_le
    rw [List.mem_map]
    exact ⟨e1, List.mem_filter.mpr ⟨he1evs, by simp [hpred.1, hpred.2.1]⟩, rfl⟩
  omega

/-- Witness for C10 on a concrete two-event test. -/
theorem C10_latency_nonneg_witness :
    0 ≤ (fieldRow "s1" "free" "q1" (fieldGroup latEvsEx "s1" "free" "q1")
        (testStartOr latEvsEx "s1" "free" (fieldGroup latEvsEx "s1" "free" "q1"))).first_key_latency_ms :=
  C10_latency_nonneg latEvsEx _
    (byFieldTable_mem_of_key latEvsEx ("s1", "free", "q1") (by decide) (by decide) (by decide))

/-! ### CHUNK 1 column validation: C3 -/

theorem find?_pred_congr {α : Type} (p q : α → Bool) :
    ∀ l : List α, (∀ a ∈ l, p a = q a) → l.find? p = l.find? q := by
  intro l
  induction l with
  | nil => intro h; rfl
  | cons x xs ih =>
    intro h
    have hx := h x (List.mem_cons_self x xs)
    by_cases hpx : p x = true
    · rw [List.find?_cons_of_pos _ hpx, List.find?_cons_of_pos _ (hx ▸ hpx)]
    · have hqx : ¬ q x = true := by
        rw [← hx]
        exact hpx
      rw [List.find?_cons_of_neg _ (by simpa using hpx),
        List.find?_cons_of_neg _ (by simpa using hqx)]
      exact ih (fun a ha => h a (List.mem_cons_of_mem x ha))

/-- C3 counterexample: a column set with timestamp but without pressed_at
passes CHUNK 1 loading with no error at all; the script silently falls
back to the timestamp column (line 38) instead of raising the claimed
fatal validation error for the missing pressed_at. -/
theorem C3_missing_pressed_at_cex :
    (["session_id", "test_type", "event_type", "key", "timestamp"].contains "pressed_at") = false
  ∧ validateKeystrokes ["session_id", "test_type", "event_type", "key", "timestamp"]
      = .ok ["session_id", "test_type", "event_type", "key", "timestamp", "pressed_at"] :=
  ⟨by decide, rfl⟩

/-- C3 amended: only session_id, test_type, event_type and key are
validated: when the timestamp indexing succeeded (pressed_at or timestamp
present) and one of the four is missing, loading aborts with the
ValueError naming a missing required column, before any metric
computation; pressed_at itself is never checked: with both pressed_at and
timestamp absent the failure is the pandas KeyError naming timestamp. -/
theorem C3_required_columns (cols : List String) :
    (("pressed_at" ∈ cols ∨ "timestamp" ∈ cols) →
      (∃ c ∈ requiredCheckCols, c ∉ cols) →
      ∃ c ∈ requiredCheckCols, c ∉ cols
        ∧ validateKeystrokes cols = .error (.valueError c))
  ∧ ("pressed_at" ∉ cols → "timestamp" ∉ cols →
      validateKeystrokes cols = .error (.keyError "timestamp")) := by
  constructor
  · intro hts hmiss
    obtain ⟨c0, hc0mem, hc0⟩ := hmiss
    by_cases hp : "pressed_at" ∈ cols
    · have hfind : (requiredCheckCols.find? (fun c => decide (c ∉ cols))).isSome := by
        rw [List.find?_isSome]
        exact ⟨c0, hc0mem, by simpa using hc0⟩
      obtain ⟨c, hc⟩ := Option.isSome_iff_exists.mp hfind
      have hcp := List.find?_some hc
      simp only [decide_eq_true_eq] at hcp
      have hcmem : c ∈ requiredCheckCols := List.mem_of_find?_eq_some hc
      refine ⟨c, hcmem, hcp, ?_⟩
      simp only [validateKeystrokes, hp, if_true, ite_true]
      rw [hc]
    · rcases hts with hts | hT
      · exact absurd hts hp
      have hpred : ∀ c ∈ requiredCheckCols,
          (fun c => decide (c ∉ cols ++ ["pressed_at"])) c = (fun c => decide (c ∉ cols)) c := by
        intro c hcmem
        have hne : c ≠ "pressed_at" := by
          fin_cases hcmem <;> decide
        simp [List.mem_append, hne]
      have hfind : (requiredCheckCols.find? (fun c => decide (c ∉ cols))).isSome := by
        rw [List.find?_isSome]
        exact ⟨c0, hc0mem, by simpa using hc0⟩
      obtain ⟨c, hc⟩ := Option.isSome_iff_exists.mp hfind
      have hcp := List.find?_some hc
      simp only [decide_eq_true_eq] at hcp
      have hcmem : c ∈ requiredCheckCols := List.mem_of_find?_eq_some hc
      refine ⟨c, hcmem, hcp, ?_⟩
      simp only [validateKeystrokes, hp, if_false, ite_false, hT, if_true, ite_true]
      rw [find?_pred_congr _ _ requiredCheckCols hpred, hc]
  · intro hp hT
    simp only [validateKeystrokes, hp, if_false, ite_false, hT]

/-- Witness for C3: an input with only a timestamp column aborts with the
ValueError naming a missing required column, and an input with no
timestamp column at all aborts with the KeyError naming timestamp. -/
theorem C3_required_columns_witness :
    (∃ c ∈ requiredCheckCols, c ∉ (["timestamp"] : List String)
      ∧ validateKeystrokes ["timestamp"] = .error (.valueError c))
  ∧ validateKeystrokes [] = .error (.keyError "timestamp") :=
  ⟨(C3_required_columns ["timestamp"]).1 (Or.inr (by decide))
      ⟨"session_id", by decide, by decide⟩,
   (C3_required_columns []).2 (by decide) (by decide)⟩
